import Mathlib

/-!
Verification development for the `embedfiles` code generator
(github.com/gwatts/embedfiles, file `embedfiles.go`).

The program is a single-pass pipeline: expand glob patterns, read each
matching file, render its bytes as `0xHH,` literal tokens into a shared
data buffer, record a manifest entry `(name, ts, offset, size)` per
processed file, and finally render a fixed Go-source template around the
manifest and the data buffer.

Shallow embedding conventions used below:
  * bytes are `Nat` values (with `< 256` hypotheses where relevant);
  * an `io.Reader` is modelled as the finite list of chunks its `Read`
    calls deliver (each call returns a chunk with a nil error), followed
    by one terminal result: `none` stands for `io.EOF`, `some e` for a
    read error `e`;
  * an `io.Writer` is modelled by its per-call responses: the `i`-th
    `Write` call either succeeds writing the whole slice, or fails after
    a partial count `wn` with error `msg` (matching the `io.Writer`
    contract used by the code);
  * the Go `map[string]entry` is modelled by its insertion sequence
    (`records`); a lookup returns the value of the last insertion for
    the key, which is exactly the content of the Go map after the loop;
  * `filepath.Glob`, `os.Open`/read and `Stat` are modelled by an
    environment `Env` giving, per pattern, the matched names or a glob
    error, and per file name its contents (or an open error) and its
    optional modification time (`none` = stat failure, which the code
    maps to timestamp 0).
-/

namespace Embedfiles

/-! ## Byte encoder: `fmtBytes` (embedfiles.go lines 169-197) -/

/-- The constant `digits = "0123456789abcdef"` of `fmtBytes`. -/
def hexDigitChars : List Char := "0123456789abcdef".toList

/-- The character `digits[n]` for a nibble `n`. -/
def hexDigit (n : Nat) : Char := hexDigitChars.getD n '?'

/-- The six characters `fmtBytes` appends for one input byte `b`:
`' ', '0', 'x', digits[b>>4], digits[b&0xf], ','`. -/
def byteChars (b : Nat) : List Char :=
  [' ', '0', 'x', hexDigit (b / 16), hexDigit (b % 16), ',']

/-- The full line `fmtBytes` writes for one non-empty chunk: the three-space
prefix, the per-byte groups, and the terminating newline. -/
def chunkChars (c : List Nat) : List Char :=
  [' ', ' ', ' '] ++ (c.map byteChars).flatten ++ ['\n']

/-- Response of the `i`-th `Write` call of the output writer: either a full
successful write, or a failure after a partial count `wn` with message `msg`. -/
inductive WResp where
  | ok : WResp
  | err (wn : Nat) (msg : String) : WResp
deriving DecidableEq, Repr

/-- A writer that never fails (e.g. the `bytes.Buffer` used by `generate`). -/
def alwaysOk : Nat → WResp := fun _ => WResp.ok

/-- Result of `fmtBytes`: bytes read, bytes written, the characters actually
written to the output writer, and the returned error (`none` = nil). -/
structure FmtRes where
  br : Nat
  bw : Nat
  out : List Char
  err : Option String
deriving DecidableEq, Repr

/-- Embedding of the `fmtBytes` loop. `chunks` are the successive chunks the
reader delivers (the code reads into a 16-byte buffer, so a real reader
delivers chunks of at most 16 bytes; the loop itself is oblivious to the
chunk size). After the last chunk, the reader reports `rerr` (`none` = EOF,
on which the loop returns a nil error). `w i` is the writer's response to
the `i`-th write. The Go function accumulates `bytesRead`/`bytesWritten`;
this embedding returns the same totals by summing the per-iteration
contributions: a chunk with `rn > 0` is formatted and written, and
`bytesRead` is only incremented after a successful write, while on a write
error the writer-reported partial count is still added to `bytesWritten`. -/
def fmtBytesGo (rerr : Option String) (w : Nat → WResp) :
    List (List Nat) → Nat → FmtRes
  | [], _ => ⟨0, 0, [], rerr⟩
  | c :: cs, i =>
    if c.length = 0 then fmtBytesGo rerr w cs i
    else
      match w i with
      | WResp.ok =>
        let r := fmtBytesGo rerr w cs (i + 1)
        ⟨c.length + r.br, (chunkChars c).length + r.bw, chunkChars c ++ r.out, r.err⟩
      | WResp.err wn msg => ⟨0, wn, (chunkChars c).take wn, some msg⟩

/-! ## Decoding the emitted tokens

The spec's round-trip property parses each emitted `0xHH` literal token
back into a byte. `parseTokens` scans the output text left to right; each
occurrence of `0`, `x`, and two following characters is a token whose two
hex digits give the byte value; all other characters are separators. -/

/-- Value of a hexadecimal digit character (0 for non-digits). -/
def hexVal : Char → Nat
  | '0' => 0 | '1' => 1 | '2' => 2 | '3' => 3
  | '4' => 4 | '5' => 5 | '6' => 6 | '7' => 7
  | '8' => 8 | '9' => 9 | 'a' => 10 | 'b' => 11
  | 'c' => 12 | 'd' => 13 | 'e' => 14 | 'f' => 15
  | _ => 0

/-- Parse every `0xHH` literal token of an encoded stream, in order. -/
def parseTokens : List Char → List Nat
  | [] => []
  | '0' :: 'x' :: a :: b :: rest => (hexVal a * 16 + hexVal b) :: parseTokens rest
  | _ :: rest => parseTokens rest

/-! ## The `generate` pipeline (embedfiles.go lines 199-270) -/

/-- A manifest entry: `type entry struct { ts int64; offset int; size int }`. -/
structure Entry where
  ts : Int
  offset : Nat
  size : Nat
deriving DecidableEq, Repr, Inhabited

/-- Environment abstracting the filesystem calls made by `generate`:
`filepath.Glob` per pattern (matched names in filesystem order, or a glob
error), `os.Open` + full read per name (contents, or an open error), and
`Stat().ModTime().Unix()` per name (`none` models a stat failure, which the
code leaves as timestamp 0). -/
structure Env where
  glob : String → Except String (List String)
  contents : String → Except String (List Nat)
  mtime : String → Option Int

/-- Byte-wise (ordinal) string comparison, the order used by Go's
`sort.Strings`: lexicographic on the character sequence. (Go compares the
UTF-8 bytes; UTF-8 byte order coincides with code-point order, so comparing
code points is the same ordering.) -/
def charsLe : List Char → List Char → Bool
  | [], _ => true
  | _ :: _, [] => false
  | a :: as, b :: bs => if a < b then true else if a = b then charsLe as bs else false

/-- The ordinal `≤` on strings used by `sort.Strings`. -/
def strLe (a b : String) : Prop := charsLe a.data b.data = true

instance : DecidableRel strLe := fun a b =>
  inferInstanceAs (Decidable (charsLe a.data b.data = true))

/-- Embedding of `strings.TrimPrefix(name, "/")` on character lists: drop one
leading `/` if present. -/
def trimSlashL : List Char → List Char
  | '/' :: r => r
  | l => l

/-- String version of `strings.TrimPrefix(name, "/")`. -/
def trimSlash (s : String) : String := ⟨trimSlashL s.data⟩

/-- Chunk splitter, structurally recursive on a fuel bounding the number of
chunks; each step takes 16 elements. With `fuel ≥ l.length` the fuel never
runs out (each step consumes at least one element of a non-empty list). -/
def chunks16Fuel : Nat → List Nat → List (List Nat)
  | _, [] => []
  | 0, _ => []
  | fuel + 1, a :: t => (a :: t).take 16 :: chunks16Fuel fuel ((a :: t).drop 16)

/-- Reading a regular file into `fmtBytes`'s 16-byte buffer yields full
16-byte chunks followed by a final short chunk: split `l` into chunks of 16. -/
def chunks16 (l : List Nat) : List (List Nat) := chunks16Fuel l.length l

/-- The characters `fmt.Fprintln(databuf, "\n    //", name)` appends. -/
def commentChars (name : String) : List Char :=
  '\n' :: ("    // " ++ name).data ++ ['\n']

/-- Mutable state of the `generate` loop. The Go `filemap` map is determined
by the insertion sequence, so it is represented by `records`, the list of
`filemap[name] = entry` insertions in processing order (one per matched file
occurrence); a map lookup returns the last insertion for the key. -/
structure GenState where
  offset : Nat
  fcount : Nat
  filenames : List String
  records : List (String × Entry)
  databuf : List Char
deriving DecidableEq, Repr, Inhabited

def initState : GenState := ⟨0, 0, [], [], []⟩

/-- Lookup in the Go map built by the insertion sequence `m`: the value of
the last insertion for key `k`, if any. -/
def mapGet (m : List (String × Entry)) (k : String) : Option Entry :=
  ((m.filter (fun p => p.1 == k)).getLast?).map Prod.snd

/-- Body of the inner `for _, name := range names` loop: append the comment
line to the data buffer, open the file (error: "Failed to read ..."), strip
one leading `/` from the name, append it to `filenames`, take the stat
timestamp (0 on stat failure), encode the contents with `fmtBytes` into the
data buffer (the buffer writer never fails), record the map insertion with
the current offset and the encoded byte count, and advance the offset.
`fcount++` happens in the Go code before the open; since `fcount` is only
read after the loop finishes successfully, incrementing it on the success
path is observably identical. -/
def processFile (env : Env) (st : GenState) (name : String) :
    Except String GenState :=
  let buf1 := st.databuf ++ commentChars name
  match env.contents name with
  | Except.error e => Except.error ("Failed to read " ++ name ++ ": " ++ e)
  | Except.ok bytes =>
    let name2 := trimSlash name
    let ts : Int := (env.mtime name).getD 0
    match fmtBytesGo none alwaysOk (chunks16 bytes) 0 with
    | ⟨_, _, _, some e⟩ =>
      Except.error ("Failed to process " ++ name2 ++ ": " ++ e)
    | ⟨br, _, out, none⟩ =>
      Except.ok
        { offset := st.offset + br
          fcount := st.fcount + 1
          filenames := st.filenames ++ [name2]
          records := st.records ++ [(name2, ⟨ts, st.offset, br⟩)]
          databuf := buf1 ++ out }

/-- The inner `for _, name := range names` loop: process each matched name
in order, aborting on the first error. -/
def processList (env : Env) : GenState → List String → Except String GenState
  | st, [] => Except.ok st
  | st, n :: ns =>
    match processFile env st n with
    | Except.error e => Except.error e
    | Except.ok st' => processList env st' ns

/-- Body of the outer `for _, pattern := range globs` loop: resolve the
pattern (a glob error aborts the run, returned verbatim) and process each
matched name in order. -/
def processPattern (env : Env) (st : GenState) (pat : String) :
    Except String GenState :=
  match env.glob pat with
  | Except.error e => Except.error e
  | Except.ok names => processList env st names

/-- The outer loop of `generate` over the glob patterns, aborting on the
first error. -/
def genLoop (env : Env) : GenState → List String → Except String GenState
  | st, [] => Except.ok st
  | st, p :: ps =>
    match processPattern env st p with
    | Except.error e => Except.error e
    | Except.ok st' => genLoop env st' ps

/-- Result of a successful `generate` run, before rendering: the sorted
filename list, the map-insertion sequence, the declared data-array length
(the final cumulative offset) and the data buffer contents. -/
structure GenOut where
  filenames : List String
  records : List (String × Entry)
  dataSize : Nat
  databuf : List Char
deriving DecidableEq, Repr, Inhabited

/-- The function `generate`: run the loops; if no file was matched, fail with
"No files found" (nothing has been written to the output writer at that
point — all writes to `w` happen after this check); otherwise sort the
filename list (`sort.Strings`, ordinal byte-wise string order) and return
the data the renderer serializes. -/
def generate (env : Env) (globs : List String) : Except String GenOut :=
  match genLoop env initState globs with
  | Except.error e => Except.error e
  | Except.ok st =>
    if st.fcount = 0 then Except.error "No files found"
    else Except.ok
      ⟨List.insertionSort strLe st.filenames, st.records, st.offset, st.databuf⟩

/-! ## Loop-state invariant, test environment, renderer inputs -/

/-- Sum of the `size` fields of a record list. -/
def sizeSum (l : List (String × Entry)) : Nat :=
  (l.map (fun r => r.2.size)).sum

/-- Per-record offset invariant: each record's offset equals the sum of the
sizes of the records before it. -/
def RecOffsets (l : List (String × Entry)) : Prop :=
  ∀ i r, l[i]? = some r → r.2.offset = sizeSum (l.take i)

/-- The loop-state invariant: the cumulative offset is the sum of recorded
sizes, the filename list collects exactly the recorded names in order, each
record's offset is the sum of the sizes recorded before it, and `fcount`
counts the records. -/
def StateOK (st : GenState) : Prop :=
  st.offset = sizeSum st.records ∧
  st.filenames = st.records.map Prod.fst ∧
  RecOffsets st.records ∧
  st.fcount = st.records.length

/-- A small concrete filesystem used by the witnesses: pattern `pa` matches
`a.txt` (two bytes `0x01 0xab`, mtime 100), `pb` matches the empty file
`b.txt` (no stat result), `pdup` matches `a.txt` again, and every other
pattern matches nothing. -/
def testEnv : Env :=
  { glob := fun p =>
      if p = "pa" then Except.ok ["a.txt"]
      else if p = "pb" then Except.ok ["b.txt"]
      else if p = "pdup" then Except.ok ["a.txt"]
      else Except.ok []
    contents := fun n =>
      if n = "a.txt" then Except.ok [1, 171]
      else if n = "b.txt" then Except.ok []
      else Except.error "open failed"
    mtime := fun n => if n = "a.txt" then some 100 else none }

/-- The output of `generate testEnv ["pa", "pb"]`. -/
def gAB : GenOut := ((generate testEnv ["pa", "pb"]).toOption).getD default

/-- The output of `generate testEnv ["pa", "pdup"]`, in which `a.txt` is
matched twice. -/
def gDup : GenOut := ((generate testEnv ["pa", "pdup"]).toOption).getD default

instance : IsTotal String strLe := by
  constructor
  intro sa sb
  show charsLe sa.data sb.data = true ∨ charsLe sb.data sa.data = true
  generalize sa.data = a
  generalize sb.data = b
  induction a generalizing b with
  | nil => left; rfl
  | cons x xs ih =>
    cases b with
    | nil => right; rfl
    | cons y ys =>
      rcases lt_trichotomy x y with hlt | heq | hgt
      · left
        simp [charsLe, hlt]
      · subst heq
        rcases ih ys with h | h
        · left
          simp [charsLe, h]
        · right
          simp [charsLe, h]
      · right
        simp [charsLe, hgt]

instance : IsTrans String strLe := by
  constructor
  intro sa sb sc hsab hsbc
  show charsLe sa.data sc.data = true
  revert hsab hsbc
  show charsLe sa.data sb.data = true → charsLe sb.data sc.data = true → _
  generalize sa.data = a
  generalize sb.data = b
  generalize sc.data = c
  induction a generalizing b c with
  | nil => intro _ _; rfl
  | cons x xs ih =>
    intro hab hbc
    cases b with
    | nil => exact absurd hab (by simp [charsLe])
    | cons y ys =>
      cases c with
      | nil => exact absurd hbc (by simp [charsLe])
      | cons z zs =>
        simp only [charsLe] at hab hbc ⊢
        by_cases hxy : x < y
        · by_cases hyz : y < z
          · simp [lt_trans hxy hyz]
          · by_cases hyz2 : y = z
            · subst hyz2
              simp [hxy]
            · simp [hyz, hyz2] at hbc
        · by_cases hxy2 : x = y
          · subst hxy2
            by_cases hxz : x < z
            · simp [hxz]
            · by_cases hxz2 : x = z
              · subst hxz2
                simp only [lt_irrefl, if_false, if_pos rfl] at hab hbc ⊢
                exact ih ys zs hab hbc
              · simp [hxz, hxz2] at hbc
          · simp [hxy, hxy2] at hab

/-- The concatenated glob results of a pattern list, in pattern order
(aborting on the first glob error), before the per-file name trimming. -/
def globMatches (env : Env) : List String → Except String (List String)
  | [] => Except.ok []
  | p :: ps =>
    match env.glob p with
    | Except.error e => Except.error e
    | Except.ok names =>
      match globMatches env ps with
      | Except.error e => Except.error e
      | Except.ok rest => Except.ok (names ++ rest)

/-- An environment with one malformed pattern. Modelled from the Go standard
library: for a malformed pattern `filepath.Glob` returns `ErrBadPattern`,
the fixed error value `errors.New("syntax error in pattern")`, whose message
does not mention the pattern; `generate` returns that error unmodified. -/
def badPatternEnv : Env :=
  { glob := fun p =>
      if p = "[" then Except.error "syntax error in pattern" else Except.ok []
    contents := fun _ => Except.error "open failed"
    mtime := fun _ => none }

/-! ## The generated virtual filesystem (template lines 116-144) -/

/-- The generated `{Prefix}T` value: filename list, manifest map (again as
its insertion sequence) and the embedded data array. -/
structure EmbeddedFS where
  filenames : List String
  files : List (String × Entry)
  data : List Nat
deriving DecidableEq, Repr

/-- What the generated `Open` returns on success: a reader over the entry's
byte range and the `{Prefix}FI` metadata (`name: path.Base(filename)`,
`size`, `mode: os.ModePerm` = 511, `ftime` from the recorded timestamp). -/
structure OpenedFile where
  contents : List Nat
  name : String
  size : Nat
  mode : Nat
  ftime : Int
deriving DecidableEq, Repr

/-- Go `path.Base`: "." for the empty path, trailing slashes stripped, then
everything after the last `/`; "/" if nothing remains. -/
def pathBase (s : String) : String :=
  if s.data = [] then "."
  else
    let t := (s.data.reverse.dropWhile (fun c => c = '/')).reverse
    if t = [] then "/"
    else ⟨(t.reverse.takeWhile (fun c => c ≠ '/')).reverse⟩

/-- The generated `Open`: strip one leading `/`, look the name up in the
manifest map (`none` models `os.ErrNotExist`), and return the reader over
`data[offset : offset+size]` with the file metadata. -/
def fsOpen (fs : EmbeddedFS) (filename : String) : Option OpenedFile :=
  let fn := trimSlash filename
  match mapGet fs.files fn with
  | none => none
  | some e =>
    some ⟨(fs.data.drop e.offset).take e.size, pathBase fn, e.size, 511, e.ts⟩

/-- A concrete embedded filesystem for the witness, matching `gAB`. -/
def testFS : EmbeddedFS :=
  { filenames := ["a.txt", "b.txt"]
    files := [("a.txt", Entry.mk 100 0 2), ("b.txt", Entry.mk 0 2 0)]
    data := [1, 171] }

/-! ## The renderer (template `header`, lines 75-148, and the writes of
`generate`, lines 244-264)

The output is modelled as the list of emission units written to `w`, in
order: the header template output (split so that the `// at <time>` line is
a unit of its own), the `var ... = &...T{` initializer, the filename list,
the map initializer opener, one line per map entry — emitted by
`for fn, entry := range filemap`, whose iteration order Go leaves
unspecified, hence a parameter `order` enumerating the map's keys — and the
data array. Concatenating the units gives the full output text. -/

/-- Go `%#v` rendering of a string: double-quoted, with `"` and `\`
backslash-escaped (the only escapes the embedded names here can need). -/
def goQuote (s : String) : String :=
  ⟨'"' :: (s.data.map
      (fun c => if c = '"' ∨ c = '\\' then ['\\', c] else [c])).flatten ++ ['"']⟩

/-- Go `%#v` rendering of a `[]string` value. -/
def goStrSlice (l : List String) : String :=
  "[]string\x7b" ++ String.intercalate ", " (l.map goQuote) ++ "\x7d"

/-- One line of the map initializer:
`fmt.Fprintf(w, "        %#v: {%d, %d, %d},\n", fn, entry.ts, entry.offset,
entry.size)` for the map value at key `k`. -/
def entryLine (rcs : List (String × Entry)) (k : String) : String :=
  match mapGet rcs k with
  | none => ""
  | some e =>
    "        " ++ goQuote k ++ ": \x7b" ++ toString e.ts ++ ", " ++
      toString e.offset ++ ", " ++ toString e.size ++ "\x7d,\n"

/-- The header template output after the `// at <time>` line: the import
block (with `net/http` when `incHTTP`), the `File`/`FI`/`T` type and method
definitions, and the `Open` function (its signature chosen by `incHTTP`). -/
def headerRest (pfx : String) (incHTTP : Bool) (dataSize : Nat) : String :=
  "\nimport (\n\t\"bytes\"\n\t\"errors\"\n\t" ++
  (if incHTTP then "\"net/http\"" else "") ++
  "\n\t\"os\"\n\t\"path\"\n\t\"strings\"\n\t\"time\"\n)\n\ntype " ++ pfx ++
  "File struct \x7b\n\t*bytes.Reader\n\tfi " ++ pfx ++ "FI\n\x7d\n\nfunc (f *" ++
  pfx ++ "File) Close() error \x7b return nil \x7d\nfunc (f *" ++ pfx ++
  "File) Readdir(count int) ([]os.FileInfo, error) \x7b return nil, errors.New(\"Denied\")\x7d\nfunc (f *" ++
  pfx ++ "File) Stat() (os.FileInfo, error) \x7b return f.fi, nil \x7d\n\ntype " ++
  pfx ++ "FI struct \x7b\n\tname  string\n\tsize  int64\n\tmode  os.FileMode\n\tftime time.Time\n\x7d\n\nfunc (fi " ++
  pfx ++ "FI) Name() string       \x7b return fi.name \x7d\nfunc (fi " ++
  pfx ++ "FI) Close() error       \x7b return nil \x7d\nfunc (fi " ++
  pfx ++ "FI) Size() int64        \x7b return fi.size \x7d\nfunc (fi " ++
  pfx ++ "FI) Mode() os.FileMode  \x7b return fi.mode \x7d\nfunc (fi " ++
  pfx ++ "FI) ModTime() time.Time \x7b return fi.ftime \x7d\nfunc (fi " ++
  pfx ++ "FI) IsDir() bool        \x7b return false \x7d\nfunc (fi " ++
  pfx ++ "FI) Sys() interface\x7b\x7d   \x7b return nil \x7d\n\ntype " ++
  pfx ++ "T struct \x7b\n\tfilenames []string\n\tfiles     map[string]struct \x7b\n\t\tts int64\n\t\toffset int\n\t\tsize   int\n\t\x7d\n\tdata [" ++
  toString dataSize ++ "]byte\n\x7d\n\nfunc (fs *" ++ pfx ++
  "T) Filenames() []string \x7b return fs.filenames \x7d\n\n// Open returns a bytes.Reader for the given filename.\n" ++
  (if incHTTP then
    "func (fs *" ++ pfx ++ "T) Open(filename string) (http.File, error) \x7b"
  else
    "func (fs *" ++ pfx ++ "T) Open(filename string) (*" ++ pfx ++ "File, error) \x7b") ++
  "\n\tfilename = strings.TrimPrefix(filename, \"/\")\n\tentry, ok := fs.files[filename]\n\tif !ok \x7b\n\t\treturn nil, os.ErrNotExist\n\t\x7d\n\tb := fs.data[entry.offset : entry.offset+entry.size]\n\treturn &" ++
  pfx ++ "File\x7b\n\t\tReader: bytes.NewReader(b),\n\t\tfi:     " ++ pfx ++
  "FI\x7bname: path.Base(filename), size: int64(entry.size), mode: os.ModePerm, ftime: time.Unix(entry.ts, 0)\x7d,\n\t\x7d, nil\n\x7d\n\n"

/-- The full generated output as the ordered list of emission units. -/
def renderOutput (pkg pfx : String) (incHTTP : Bool) (g : GenOut)
    (order : List String) (time : String) : List String :=
  ["package " ++ pkg ++ "\n\n// Generated by github.com/gwatts/embedfiles\n",
   "// at " ++ time ++ "\n",
   headerRest pfx incHTTP g.dataSize,
   "var " ++ pfx ++ " = &" ++ pfx ++ "T\x7b\n",
   "    filenames: " ++ goStrSlice g.filenames ++ ",\n",
   "    files: map[string]struct\x7bts int64; offset int; size int\x7d\x7b\n"] ++
  order.map (entryLine g.records) ++
  ["    \x7d,\n",
   "    data: [" ++ toString g.dataSize ++ "]byte\x7b\n",
   String.mk g.databuf,
   "    \x7d,\n",
   "\x7d\n"]

/-- A possible iteration order of `for fn, entry := range filemap`: Go
leaves the order unspecified, any enumeration of the map's keys (each
exactly once) can occur between two runs. -/
def validOrder (g : GenOut) (o : List String) : Prop :=
  o.Perm (g.records.map Prod.fst).dedup

instance (g : GenOut) (o : List String) : Decidable (validOrder g o) :=
  List.decidablePerm o (g.records.map Prod.fst).dedup

/-- The output with the generation-timestamp comment line (the second
emission unit) removed. -/
def stripTime (out : List String) : List String := out.eraseIdx 1

/-! ## Lemmas and claim theorems -/

lemma parseTokens_token (a b : Char) (l : List Char) :
    parseTokens ('0' :: 'x' :: a :: b :: l) =
      (hexVal a * 16 + hexVal b) :: parseTokens l := rfl

lemma parseTokens_skip (c : Char) (hc : c ≠ '0') (l : List Char) :
    parseTokens (c :: l) = parseTokens l := by
  rw [parseTokens.eq_def]
  split
  · rename_i heq
    exact absurd heq (by simp)
  · rename_i heq
    injection heq with h1 _
    exact absurd h1 hc
  · rename_i h heq
    injection heq with h1 h2
    rw [h2]

lemma hexVal_hexDigit : ∀ n, n < 16 → hexVal (hexDigit n) = n := by decide

lemma parseTokens_byte (b : Nat) (hb : b < 256) (r : List Char) :
    parseTokens (byteChars b ++ r) = b :: parseTokens r := by
  show parseTokens
      (' ' :: '0' :: 'x' :: hexDigit (b / 16) :: hexDigit (b % 16) :: ',' :: r) = _
  rw [parseTokens_skip ' ' (by decide), parseTokens_token,
      parseTokens_skip ',' (by decide)]
  have h1 : b / 16 < 16 := by omega
  have h2 : b % 16 < 16 := Nat.mod_lt _ (by decide)
  rw [hexVal_hexDigit _ h1, hexVal_hexDigit _ h2]
  congr 1
  omega

lemma parseTokens_flat (c : List Nat) (hb : ∀ b ∈ c, b < 256) (r : List Char) :
    parseTokens ((c.map byteChars).flatten ++ r) = c ++ parseTokens r := by
  induction c with
  | nil => simp
  | cons b t ih =>
    simp only [List.map_cons, List.flatten_cons, List.append_assoc]
    rw [parseTokens_byte b (hb b (by simp)), ih (fun x hx => hb x (by simp [hx]))]
    rfl

lemma parseTokens_chunk (c : List Nat) (hb : ∀ b ∈ c, b < 256) (r : List Char) :
    parseTokens (chunkChars c ++ r) = c ++ parseTokens r := by
  show parseTokens
      (' ' :: ' ' :: ' ' :: (((c.map byteChars).flatten ++ ['\n']) ++ r)) = _
  rw [List.append_assoc, parseTokens_skip ' ' (by decide),
      parseTokens_skip ' ' (by decide), parseTokens_skip ' ' (by decide),
      parseTokens_flat c hb, List.singleton_append,
      parseTokens_skip '\n' (by decide)]

lemma fmtBytesGo_ok_spec (chunks : List (List Nat))
    (hb : ∀ b ∈ chunks.flatten, b < 256) :
    ∀ i : Nat,
      (fmtBytesGo none alwaysOk chunks i).err = none ∧
      (fmtBytesGo none alwaysOk chunks i).br = chunks.flatten.length ∧
      parseTokens (fmtBytesGo none alwaysOk chunks i).out = chunks.flatten := by
  induction chunks with
  | nil => intro i; exact ⟨rfl, rfl, rfl⟩
  | cons c cs ih =>
    intro i
    have hbc : ∀ b ∈ c, b < 256 := fun b hbm => hb b (by simp [hbm])
    have hbcs : ∀ b ∈ cs.flatten, b < 256 := fun b hbm => hb b (by simp [hbm])
    obtain ⟨ihe, ihr, ihp⟩ := ih hbcs (i + 1)
    by_cases hc : c.length = 0
    · have hcnil : c = [] := List.length_eq_zero.mp hc
      subst hcnil
      have hstep : fmtBytesGo none alwaysOk ([] :: cs) i =
          fmtBytesGo none alwaysOk cs i := rfl
      rw [hstep]
      simpa using ih hbcs i
    · simp only [fmtBytesGo, hc, if_false, alwaysOk]
      refine ⟨ihe, ?_, ?_⟩
      · simp [ihr]
      · rw [parseTokens_chunk c hbc, ihp]
        simp

/-- C1: for every non-empty input byte sequence, however the reader splits it
into chunks, parsing the `0xHH` tokens emitted by `fmtBytes` (to a
never-failing writer, as `generate` uses) reproduces the input bytes exactly,
the number of emitted tokens equals the number of input bytes, and `fmtBytes`
reports no error and a `bytesRead` equal to the input length. -/
theorem fmtBytes_encode_decode (chunks : List (List Nat))
    (hb : ∀ b ∈ chunks.flatten, b < 256) (_hne : chunks.flatten ≠ []) :
    parseTokens (fmtBytesGo none alwaysOk chunks 0).out = chunks.flatten ∧
    (parseTokens (fmtBytesGo none alwaysOk chunks 0).out).length =
      chunks.flatten.length ∧
    (fmtBytesGo none alwaysOk chunks 0).br = chunks.flatten.length ∧
    (fmtBytesGo none alwaysOk chunks 0).err = none := by
  obtain ⟨he, hr, hp⟩ := fmtBytesGo_ok_spec chunks hb 0
  exact ⟨hp, by rw [hp], hr, he⟩

/-- Witness for `fmtBytes_encode_decode` at the concrete input
`[[1, 171], [255]]`. -/
theorem fmtBytes_encode_decode_witness :
    ([[1, 171], [255]] : List (List Nat)).flatten ≠ [] ∧
    parseTokens (fmtBytesGo none alwaysOk [[1, 171], [255]] 0).out =
      [1, 171, 255] ∧
    (fmtBytesGo none alwaysOk [[1, 171], [255]] 0).br = 3 := by
  refine ⟨by decide, ?_, ?_⟩
  · exact (fmtBytes_encode_decode [[1, 171], [255]] (by decide) (by decide)).1
  · exact (fmtBytes_encode_decode [[1, 171], [255]] (by decide) (by decide)).2.2.1

lemma fmtBytesGo_err_spec (rerr : Option String) (w : Nat → WResp)
    (wn : Nat) (msg : String) :
    ∀ (chunks : List (List Nat)) (i k : Nat),
      (∀ c ∈ chunks, c ≠ []) → k < chunks.length →
      (∀ j, j < k → w (i + j) = WResp.ok) → w (i + k) = WResp.err wn msg →
      (fmtBytesGo rerr w chunks i).br = ((chunks.take k).map List.length).sum ∧
      (fmtBytesGo rerr w chunks i).bw =
        ((chunks.take k).map (fun c => (chunkChars c).length)).sum + wn ∧
      (fmtBytesGo rerr w chunks i).err = some msg := by
  intro chunks
  induction chunks with
  | nil => intro i k _ hk; exact absurd hk (by simp)
  | cons c cs ih =>
    intro i k hne hk hok hfail
    have hc : ¬ c.length = 0 := by
      simpa [List.length_eq_zero] using hne c (by simp)
    cases k with
    | zero =>
      have hw : w i = WResp.err wn msg := by simpa using hfail
      simp [fmtBytesGo, hc, hw]
    | succ k' =>
      have hw : w i = WResp.ok := by simpa using hok 0 (Nat.succ_pos _)
      have hok' : ∀ j, j < k' → w (i + 1 + j) = WResp.ok := by
        intro j hj
        have := hok (j + 1) (by omega)
        simpa [Nat.add_assoc, Nat.add_comm 1 j] using this
      have hfail' : w (i + 1 + k') = WResp.err wn msg := by
        have := hfail
        simpa [Nat.add_assoc, Nat.add_comm 1 k'] using this
      have hne' : ∀ x ∈ cs, x ≠ [] := fun x hx => hne x (by simp [hx])
      obtain ⟨ihr, ihw, ihe⟩ :=
        ih (i + 1) k' hne' (by simpa using Nat.lt_of_succ_lt_succ hk) hok' hfail'
      simp only [fmtBytesGo, hc, if_false, hw]
      refine ⟨?_, ?_, ihe⟩
      · simp [ihr]
      · simp [ihw]; omega

/-- C10: if the writer fails at the `k`-th write (after `k` successful
writes), `fmtBytes` returns a `bytesRead` that excludes the bytes of the
chunk whose write failed (only the first `k` chunks are counted), while
`bytesWritten` includes the writer-reported partial count `wn` of the failed
write, and the write error is propagated. -/
theorem fmtBytes_write_error_counts (chunks : List (List Nat))
    (w : Nat → WResp) (rerr : Option String) (k wn : Nat) (msg : String)
    (hne : ∀ c ∈ chunks, c ≠ [])
    (hk : k < chunks.length)
    (hok : ∀ j, j < k → w j = WResp.ok)
    (hfail : w k = WResp.err wn msg) :
    (fmtBytesGo rerr w chunks 0).br = ((chunks.take k).map List.length).sum ∧
    (fmtBytesGo rerr w chunks 0).bw =
      ((chunks.take k).map (fun c => (chunkChars c).length)).sum + wn ∧
    (fmtBytesGo rerr w chunks 0).err = some msg := by
  exact fmtBytesGo_err_spec rerr w wn msg chunks 0 k hne hk
    (fun j hj => by simpa using hok j hj) (by simpa using hfail)

/-- Witness for `fmtBytes_write_error_counts`: two one-byte chunks, the writer
fails on the second write after reporting 5 bytes written; `bytesRead` is 1
(the second chunk's byte is excluded), `bytesWritten` counts the first full
line (16 characters) plus the partial 5. -/
theorem fmtBytes_write_error_counts_witness :
    (fmtBytesGo none (fun i => if i = 0 then WResp.ok else WResp.err 5 "boom")
        [[1], [2]] 0).br = 1 ∧
    (fmtBytesGo none (fun i => if i = 0 then WResp.ok else WResp.err 5 "boom")
        [[1], [2]] 0).bw = 10 + 5 ∧
    (fmtBytesGo none (fun i => if i = 0 then WResp.ok else WResp.err 5 "boom")
        [[1], [2]] 0).err = some "boom" := by
  have h := fmtBytes_write_error_counts [[1], [2]]
    (fun i => if i = 0 then WResp.ok else WResp.err 5 "boom")
    none 1 5 "boom" (by decide) (by decide) (by decide) (by decide)
  exact ⟨h.1, by simpa using h.2.1, h.2.2⟩

/-- Shape of a successful `processFile` step: exactly one name is appended
to `filenames`, one map insertion is recorded with the pre-step offset, and
the offset advances by the recorded size. -/
lemma processFile_ok (env : Env) (st : GenState) (n : String)
    (st' : GenState) (h : processFile env st n = Except.ok st') :
    ∃ ts br out,
      st'.offset = st.offset + br ∧
      st'.fcount = st.fcount + 1 ∧
      st'.filenames = st.filenames ++ [trimSlash n] ∧
      st'.records = st.records ++ [(trimSlash n, Entry.mk ts st.offset br)] ∧
      st'.databuf = (st.databuf ++ commentChars n) ++ out := by
  unfold processFile at h
  cases hc : env.contents n with
  | error e => rw [hc] at h; simp at h
  | ok bytes =>
    rw [hc] at h
    simp only [Except.ok.injEq] at h
    cases hf : fmtBytesGo none alwaysOk (chunks16 bytes) 0 with
    | mk br bw out err =>
      rw [hf] at h
      cases err with
      | some e => simp at h
      | none =>
        simp only [Except.ok.injEq] at h
        subst h
        exact ⟨(env.mtime n).getD 0, br, out, rfl, rfl, rfl, rfl, rfl⟩

lemma RecOffsets_append (l : List (String × Entry)) (x : String × Entry)
    (hl : RecOffsets l) (hx : x.2.offset = sizeSum l) :
    RecOffsets (l ++ [x]) := by
  intro i r hr
  rcases Nat.lt_trichotomy i l.length with hlt | heq | hgt
  · rw [List.getElem?_append, if_pos hlt] at hr
    rw [List.take_append_of_le_length (Nat.le_of_lt hlt)]
    exact hl i r hr
  · subst heq
    rw [List.getElem?_concat_length] at hr
    injection hr with hr
    rw [← hr, List.take_left]
    exact hx
  · rw [List.getElem?_eq_none (by simp; omega)] at hr
    cases hr

lemma StateOK_init : StateOK initState := by
  refine ⟨rfl, rfl, ?_, rfl⟩
  intro i r hr
  cases hr

lemma StateOK_processFile (env : Env) (st : GenState) (n : String)
    (st' : GenState) (hok : StateOK st)
    (h : processFile env st n = Except.ok st') : StateOK st' := by
  obtain ⟨hoff, hfn, hrec, hcnt⟩ := hok
  obtain ⟨ts, br, out, h1, h2, h3, h4, h5⟩ := processFile_ok env st n st' h
  refine ⟨?_, ?_, ?_, ?_⟩
  · rw [h1, h4, hoff]
    simp [sizeSum]
  · rw [h3, h4, hfn]
    simp
  · rw [h4]
    exact RecOffsets_append st.records _ hrec (by simpa using hoff)
  · rw [h2, h4, hcnt]
    simp

lemma StateOK_processList (env : Env) :
    ∀ (ns : List String) (st st' : GenState), StateOK st →
      processList env st ns = Except.ok st' → StateOK st' := by
  intro ns
  induction ns with
  | nil =>
    intro st st' hok h
    simp only [processList, Except.ok.injEq] at h
    rwa [← h]
  | cons n t ih =>
    intro st st' hok h
    simp only [processList] at h
    cases hf : processFile env st n with
    | error e => rw [hf] at h; exact absurd h (by simp)
    | ok st1 =>
      rw [hf] at h
      exact ih st1 st' (StateOK_processFile env st n st1 hok hf) h

lemma StateOK_genLoop (env : Env) :
    ∀ (gs : List String) (st st' : GenState), StateOK st →
      genLoop env st gs = Except.ok st' → StateOK st' := by
  intro gs
  induction gs with
  | nil =>
    intro st st' hok h
    simp only [genLoop, Except.ok.injEq] at h
    rwa [← h]
  | cons p ps ih =>
    intro st st' hok h
    simp only [genLoop] at h
    cases hp : processPattern env st p with
    | error e => rw [hp] at h; exact absurd h (by simp)
    | ok st1 =>
      rw [hp] at h
      refine ih st1 st' ?_ h
      unfold processPattern at hp
      cases hg : env.glob p with
      | error e => rw [hg] at hp; exact absurd hp (by simp)
      | ok names =>
        rw [hg] at hp
        exact StateOK_processList env names st st1 hok hp

/-- Unpacking a successful `generate` run into its final loop state. -/
lemma generate_ok_inv (env : Env) (gs : List String) (g : GenOut)
    (h : generate env gs = Except.ok g) :
    ∃ st, genLoop env initState gs = Except.ok st ∧ StateOK st ∧
      g.records = st.records ∧ g.dataSize = st.offset ∧
      g.filenames = List.insertionSort strLe st.filenames ∧
      g.databuf = st.databuf ∧ st.fcount ≠ 0 := by
  unfold generate at h
  cases hl : genLoop env initState gs with
  | error e => rw [hl] at h; simp at h
  | ok st =>
    rw [hl] at h
    by_cases hc : st.fcount = 0
    · simp [hc] at h
    · simp only [if_neg hc, Except.ok.injEq] at h
      subst h
      exact ⟨st, rfl, StateOK_genLoop env gs initState st StateOK_init hl,
        rfl, rfl, rfl, rfl, hc⟩

/-- C2: after a successful `generate` run, the manifest entries recorded in
processing order start at offset 0, are contiguous
(`offset_i + size_i = offset_(i+1)`), and their sizes sum to the declared
data-array length `DataSize`. -/
theorem generate_offsets (env : Env) (gs : List String) (g : GenOut)
    (h : generate env gs = Except.ok g) :
    (∀ r, g.records[0]? = some r → r.2.offset = 0) ∧
    (∀ i ri rj, g.records[i]? = some ri → g.records[i + 1]? = some rj →
        ri.2.offset + ri.2.size = rj.2.offset) ∧
    sizeSum g.records = g.dataSize := by
  obtain ⟨st, _, ⟨hoff, _, hrec, _⟩, hgrec, hgsize, _, _, _⟩ :=
    generate_ok_inv env gs g h
  rw [hgrec, hgsize]
  refine ⟨?_, ?_, hoff.symm⟩
  · intro r hr
    have := hrec 0 r hr
    simpa [sizeSum] using this
  · intro i ri rj hi hj
    obtain ⟨hilt, hig⟩ := List.getElem?_eq_some.mp hi
    have h1 := hrec i ri hi
    have h2 := hrec (i + 1) rj hj
    have hmap : i < (st.records.map (fun r => r.2.size)).length := by
      simpa using hilt
    have hsum := List.sum_take_succ (st.records.map (fun r => r.2.size)) i hmap
    have hgetm : (st.records.map (fun r => r.2.size))[i] = ri.2.size := by
      rw [List.getElem_map, hig]
    rw [h1, h2]
    unfold sizeSum
    rw [List.map_take, List.map_take, hsum, hgetm]

/-- Witness for `generate_offsets` at the concrete run
`generate testEnv ["pa", "pb"]` (records: `a.txt` at offset 0 size 2,
`b.txt` at offset 2 size 0; data size 2). -/
theorem generate_offsets_witness :
    (∀ r, gAB.records[0]? = some r → r.2.offset = 0) ∧
    (∀ i ri rj, gAB.records[i]? = some ri → gAB.records[i + 1]? = some rj →
        ri.2.offset + ri.2.size = rj.2.offset) ∧
    sizeSum gAB.records = gAB.dataSize :=
  generate_offsets testEnv ["pa", "pb"] gAB (by rfl)

/-- Lookup in the Go map yields the value of the last insertion for the key:
if the insertion sequence splits as `pre ++ (n, e) :: post` with no later
insertion for `n` in `post`, the lookup returns `e`. -/
lemma mapGet_last (pre post : List (String × Entry)) (n : String) (e : Entry)
    (hlast : n ∉ post.map Prod.fst) :
    mapGet (pre ++ (n, e) :: post) n = some e := by
  unfold mapGet
  have hpost : post.filter (fun p => p.1 == n) = [] := by
    rw [List.filter_eq_nil_iff]
    intro p hp
    simp only [beq_iff_eq]
    intro hpe
    exact hlast (by rw [← hpe]; exact List.mem_map_of_mem Prod.fst hp)
  rw [show (n, e) :: post = [(n, e)] ++ post by rfl, ← List.append_assoc,
      List.filter_append, hpost, List.append_nil, List.filter_append]
  have hne : List.filter (fun p => p.1 == n) [(n, e)] = [(n, e)] := by
    simp
  rw [hne, List.getLast?_concat]
  rfl

/-- C3: when a name occurs more than once among the matched files, the Go
map holds exactly one entry for it, namely the one recorded for the last
occurrence processed (`pre ++ (n, e) :: post` with no occurrence of `n` in
`post`), while every occurrence — duplicates included — was still read and
encoded into the data buffer: the declared data size is the sum of the
sizes of all records, one per occurrence. -/
theorem duplicate_last_wins (env : Env) (gs : List String) (g : GenOut)
    (h : generate env gs = Except.ok g)
    (n : String) (e : Entry) (pre post : List (String × Entry))
    (hsplit : g.records = pre ++ (n, e) :: post)
    (hlast : n ∉ post.map Prod.fst) :
    mapGet g.records n = some e ∧ g.dataSize = sizeSum g.records := by
  obtain ⟨st, _, ⟨hoff, _, _, _⟩, hgrec, hgsize, _, _, _⟩ :=
    generate_ok_inv env gs g h
  constructor
  · rw [hsplit]
    exact mapGet_last pre post n e hlast
  · rw [hgrec, hgsize, hoff]

/-- Witness for `duplicate_last_wins` at the run
`generate testEnv ["pa", "pdup"]`, in which `a.txt` is matched by both
patterns: the lookup returns the second record (offset 2), and the data size
4 counts both encodings of the 2-byte file. -/
theorem duplicate_last_wins_witness :
    mapGet gDup.records "a.txt" = some (Entry.mk 100 2 2) ∧
    gDup.dataSize = sizeSum gDup.records :=
  duplicate_last_wins testEnv ["pa", "pdup"] gDup (by rfl) "a.txt"
    (Entry.mk 100 2 2) [("a.txt", Entry.mk 100 0 2)] [] (by rfl) (by simp)

/-- A map lookup succeeds exactly for the inserted names. -/
lemma mapGet_isSome (m : List (String × Entry)) (k : String) :
    (mapGet m k).isSome = true ↔ k ∈ m.map Prod.fst := by
  unfold mapGet
  rw [Option.isSome_map', List.getLast?_isSome, Ne, List.filter_eq_nil_iff]
  constructor
  · intro h
    by_contra hk
    exact h (fun p hp => by
      simp only [beq_iff_eq]
      intro hpe
      exact hk (by rw [← hpe]; exact List.mem_map_of_mem Prod.fst hp))
  · intro hk h
    obtain ⟨p, hp, hpe⟩ := List.mem_map.mp hk
    exact (h p hp) (by simp [hpe])

/-- C5: in every successful generation the emitted filename list is sorted
ascending in the ordinal (raw byte-wise) string order, and lookup in the
manifest map succeeds for every name in that list (i.e. for every processed
file name). -/
theorem filenames_sorted_lookup (env : Env) (gs : List String) (g : GenOut)
    (h : generate env gs = Except.ok g) :
    List.Sorted strLe g.filenames ∧
    ∀ n ∈ g.filenames, (mapGet g.records n).isSome = true := by
  obtain ⟨st, _, ⟨_, hfn, _, _⟩, hgrec, _, hgfn, _, _⟩ :=
    generate_ok_inv env gs g h
  constructor
  · rw [hgfn]
    exact List.sorted_insertionSort strLe st.filenames
  · intro n hn
    rw [hgfn] at hn
    have hmem : n ∈ st.filenames :=
      (List.perm_insertionSort strLe st.filenames).mem_iff.mp hn
    rw [hgrec, mapGet_isSome]
    rw [hfn] at hmem
    exact hmem

/-- Witness for `filenames_sorted_lookup` at `generate testEnv ["pa", "pb"]`:
the list `["a.txt", "b.txt"]` is sorted and both lookups succeed. -/
theorem filenames_sorted_lookup_witness :
    List.Sorted strLe gAB.filenames ∧
    (mapGet gAB.records "a.txt").isSome = true ∧
    (mapGet gAB.records "b.txt").isSome = true :=
  ⟨(filenames_sorted_lookup testEnv ["pa", "pb"] gAB (by rfl)).1,
   (filenames_sorted_lookup testEnv ["pa", "pb"] gAB (by rfl)).2 "a.txt" (by decide),
   (filenames_sorted_lookup testEnv ["pa", "pb"] gAB (by rfl)).2 "b.txt" (by decide)⟩

lemma processList_records (env : Env) :
    ∀ (ns : List String) (st st' : GenState),
      processList env st ns = Except.ok st' →
      st'.records.map Prod.fst = st.records.map Prod.fst ++ ns.map trimSlash := by
  intro ns
  induction ns with
  | nil =>
    intro st st' h
    simp only [processList, Except.ok.injEq] at h
    rw [← h]
    simp
  | cons n t ih =>
    intro st st' h
    simp only [processList] at h
    cases hf : processFile env st n with
    | error e => rw [hf] at h; simp at h
    | ok st1 =>
      rw [hf] at h
      obtain ⟨ts, br, out, _, _, _, h4, _⟩ := processFile_ok env st n st1 hf
      rw [ih st1 st' h, h4]
      simp

lemma genLoop_matches (env : Env) :
    ∀ (gs : List String) (st st' : GenState),
      genLoop env st gs = Except.ok st' →
      ∃ ms, globMatches env gs = Except.ok ms ∧
        st'.records.map Prod.fst = st.records.map Prod.fst ++ ms.map trimSlash := by
  intro gs
  induction gs with
  | nil =>
    intro st st' h
    simp only [genLoop, Except.ok.injEq] at h
    exact ⟨[], rfl, by rw [← h]; simp⟩
  | cons p ps ih =>
    intro st st' h
    simp only [genLoop] at h
    cases hp : processPattern env st p with
    | error e => rw [hp] at h; simp at h
    | ok st1 =>
      rw [hp] at h
      obtain ⟨ms, hms, hrec⟩ := ih st1 st' h
      unfold processPattern at hp
      cases hg : env.glob p with
      | error e => rw [hg] at hp; simp at hp
      | ok names =>
        rw [hg] at hp
        refine ⟨names ++ ms, ?_, ?_⟩
        · simp only [globMatches, hg, hms]
        · rw [hrec, processList_records env names st st1 hp]
          simp

/-- C9 (implicit): a path matched by `k` pattern occurrences appears exactly
`k` times in the emitted filename list — the list is appended to once per
occurrence and never deduplicated: the count of `n` in the final sorted
filename list equals its count among the (trimmed) concatenated glob
matches, and there is one manifest record per match occurrence. -/
theorem filenames_occurrences (env : Env) (gs : List String) (g : GenOut)
    (h : generate env gs = Except.ok g) (n : String) :
    ∃ ms, globMatches env gs = Except.ok ms ∧
      g.filenames.count n = (ms.map trimSlash).count n ∧
      g.records.length = ms.length := by
  obtain ⟨st, hl, ⟨_, hfn, _, _⟩, hgrec, _, hgfn, _, _⟩ :=
    generate_ok_inv env gs g h
  obtain ⟨ms, hms, hrec⟩ := genLoop_matches env gs initState st hl
  have hrec' : st.records.map Prod.fst = ms.map trimSlash := by
    simpa [initState] using hrec
  refine ⟨ms, hms, ?_, ?_⟩
  · rw [hgfn, (List.perm_insertionSort strLe st.filenames).count_eq n, hfn, hrec']
  · rw [hgrec]
    have := congrArg List.length hrec'
    simpa using this

/-- Witness for `filenames_occurrences` at `generate testEnv ["pa", "pdup"]`:
`a.txt` is matched twice, and indeed appears twice in the filename list. -/
theorem filenames_occurrences_witness :
    gDup.filenames.count "a.txt" = 2 ∧
    ∃ ms, globMatches testEnv ["pa", "pdup"] = Except.ok ms ∧
      gDup.filenames.count "a.txt" = (ms.map trimSlash).count "a.txt" ∧
      gDup.records.length = ms.length :=
  ⟨by rfl, filenames_occurrences testEnv ["pa", "pdup"] gDup (by rfl) "a.txt"⟩

lemma processPattern_empty (env : Env) (st : GenState) (p : String)
    (hp : env.glob p = Except.ok []) :
    processPattern env st p = Except.ok st := by
  unfold processPattern
  rw [hp]
  rfl

lemma genLoop_insert_empty (env : Env) (p : String)
    (hp : env.glob p = Except.ok []) :
    ∀ (gs1 gs2 : List String) (st : GenState),
      genLoop env st (gs1 ++ p :: gs2) = genLoop env st (gs1 ++ gs2) := by
  intro gs1
  induction gs1 with
  | nil =>
    intro gs2 st
    simp only [List.nil_append, genLoop, processPattern_empty env st p hp]
  | cons q qs ih =>
    intro gs2 st
    simp only [List.cons_append, genLoop]
    cases hq : processPattern env st q with
    | error e => rfl
    | ok st1 => exact ih gs2 st1

lemma genLoop_all_empty (env : Env) :
    ∀ (gs : List String) (st : GenState),
      (∀ q ∈ gs, env.glob q = Except.ok []) →
      genLoop env st gs = Except.ok st := by
  intro gs
  induction gs with
  | nil => intro st _; rfl
  | cons p ps ih =>
    intro st hall
    simp only [genLoop,
      processPattern_empty env st p (hall p (by simp))]
    exact ih st (fun q hq => hall q (by simp [hq]))

/-- C4: a pattern matching zero files is not itself an error — inserting it
anywhere among the patterns leaves the result of `generate` unchanged — and
when every pattern matches zero files the run fails with the error
"No files found" (in the model a failing run carries no output; in the code
every write to the output writer happens after this check). -/
theorem generate_no_files (env : Env) (gs1 gs2 : List String) (p : String)
    (hp : env.glob p = Except.ok [])
    (hall : ∀ q ∈ gs1 ++ gs2, env.glob q = Except.ok []) :
    generate env (gs1 ++ p :: gs2) = generate env (gs1 ++ gs2) ∧
    generate env (gs1 ++ p :: gs2) = Except.error "No files found" := by
  have h1 : generate env (gs1 ++ p :: gs2) = generate env (gs1 ++ gs2) := by
    unfold generate
    rw [genLoop_insert_empty env p hp gs1 gs2 initState]
  refine ⟨h1, ?_⟩
  rw [h1]
  unfold generate
  rw [genLoop_all_empty env (gs1 ++ gs2) initState hall]
  rfl

/-- Witness for `generate_no_files`: three patterns matching nothing. -/
theorem generate_no_files_witness :
    generate testEnv ["zz", "qq", "yy"] = generate testEnv ["zz", "yy"] ∧
    generate testEnv ["zz", "qq", "yy"] = Except.error "No files found" :=
  generate_no_files testEnv ["zz"] ["yy"] "qq" (by rfl)
    (by
      intro q hq
      rcases List.mem_cons.mp hq with rfl | hq2
      · rfl
      · rcases List.mem_cons.mp hq2 with rfl | h3
        · rfl
        · cases h3)

lemma genLoop_append (env : Env) :
    ∀ (l1 l2 : List String) (st : GenState),
      genLoop env st (l1 ++ l2) =
        match genLoop env st l1 with
        | Except.error e => Except.error e
        | Except.ok st' => genLoop env st' l2 := by
  intro l1
  induction l1 with
  | nil => intro l2 st; rfl
  | cons q qs ih =>
    intro l2 st
    simp only [List.cons_append, genLoop]
    cases hq : processPattern env st q with
    | error e => rfl
    | ok st1 => exact ih l2 st1

/-- C7 (amended): a glob error on a pattern aborts the run immediately — the
result does not depend on the patterns after it, nor on any file contents —
and the glob error is returned verbatim. -/
theorem glob_error_immediate (env : Env) (gs1 gs2 : List String)
    (p e : String) (st : GenState)
    (hprev : genLoop env initState gs1 = Except.ok st)
    (hp : env.glob p = Except.error e) :
    generate env (gs1 ++ p :: gs2) = Except.error e := by
  have hpp : processPattern env st p = Except.error e := by
    unfold processPattern
    rw [hp]
  unfold generate
  rw [genLoop_append env gs1 (p :: gs2) initState, hprev]
  simp only [genLoop, hpp]

/-- Witness for `glob_error_immediate`: after one empty-matching pattern, the
malformed pattern `[` aborts the run with the bare glob error, regardless of
the trailing pattern. -/
theorem glob_error_immediate_witness :
    generate badPatternEnv ["ok1", "[", "later"] =
      Except.error "syntax error in pattern" :=
  glob_error_immediate badPatternEnv ["ok1"] ["later"] "[" "syntax error in pattern"
    initState (by rfl) (by rfl)

/-- C7 counterexample (to the claim as stated): the error with which the run
fails on the malformed pattern `[` is the fixed stdlib message
"syntax error in pattern", which does not contain — hence does not name —
the offending pattern. -/
theorem glob_error_unnamed_counterexample :
    generate badPatternEnv ["["] = Except.error "syntax error in pattern" ∧
    ¬ ("[".data <:+: "syntax error in pattern".data) :=
  ⟨by rfl, by decide⟩

lemma trimSlashL_cons_ne (c : Char) (hc : c ≠ '/') (l : List Char) :
    trimSlashL (c :: l) = c :: l := by
  rw [trimSlashL.eq_def]
  split
  · rename_i heq
    injection heq with h1 _
    exact absurd h1 hc
  · rfl

/-- C8: for any requested name `n` without a leading path separator (every
recorded name, in particular), opening `"/" ++ n` gives exactly the same
result as opening `n`: the leading separator is stripped before the manifest
lookup. -/
theorem open_leading_slash (fs : EmbeddedFS) (n : String)
    (h : n.data.head? ≠ some '/') :
    fsOpen fs ("/" ++ n) = fsOpen fs n := by
  have htrim1 : trimSlash ("/" ++ n) = n := by
    cases n with
    | mk l => rfl
  have htrim2 : trimSlash n = n := by
    unfold trimSlash
    cases n with
    | mk l =>
      cases l with
      | nil => rfl
      | cons c r =>
        have hc : c ≠ '/' := by
          intro hcc
          exact h (by simp [hcc])
        rw [trimSlashL_cons_ne c hc r]
  unfold fsOpen
  rw [htrim1, htrim2]

/-- Witness for `open_leading_slash`: `/a.txt` and `a.txt` resolve to the
same entry of `testFS`, with the expected contents and metadata. -/
theorem open_leading_slash_witness :
    fsOpen testFS ("/" ++ "a.txt") = fsOpen testFS "a.txt" ∧
    fsOpen testFS "a.txt" = some (OpenedFile.mk [1, 171] "a.txt" 2 511 100) :=
  ⟨open_leading_slash testFS "a.txt" (by decide), by rfl⟩

/-- C6 counterexample (to the claim as stated): on the same inputs, two runs
differing only in the (unspecified) map iteration order produce different
outputs even after removing the timestamp line — the map-initializer lines
appear in different orders. -/
theorem output_order_counterexample :
    generate testEnv ["pa", "pb"] = Except.ok gAB ∧
    validOrder gAB ["a.txt", "b.txt"] ∧
    validOrder gAB ["b.txt", "a.txt"] ∧
    stripTime (renderOutput "main" "assets" false gAB ["a.txt", "b.txt"] "T1") ≠
      stripTime (renderOutput "main" "assets" false gAB ["b.txt", "a.txt"] "T2") := by
  refine ⟨by rfl, by decide, by decide, ?_⟩
  have h5 : (stripTime
        (renderOutput "main" "assets" false gAB ["a.txt", "b.txt"] "T1"))[5]? ≠
      (stripTime
        (renderOutput "main" "assets" false gAB ["b.txt", "a.txt"] "T2"))[5]? := by
    decide
  intro heq
  exact h5 (by rw [heq])

/-- C6 (amended): two runs of `generate` on identical inputs produce
identical semantic output (`generate` is a function of the environment), and
the rendered outputs are identical apart from the generation-timestamp line
and the order of the map-initializer entry lines: with the timestamp line
removed, the two outputs are permutations of one another, the permutation
touching only the map-entry block. -/
theorem generate_deterministic (pkg pfx : String) (incHTTP : Bool)
    (env : Env) (gs : List String) (g : GenOut) (o1 o2 : List String)
    (t1 t2 : String)
    (_h : generate env gs = Except.ok g)
    (h1 : validOrder g o1) (h2 : validOrder g o2) :
    (stripTime (renderOutput pkg pfx incHTTP g o1 t1)).Perm
      (stripTime (renderOutput pkg pfx incHTTP g o2 t2)) ∧
    (o1.map (entryLine g.records)).Perm (o2.map (entryLine g.records)) := by
  have hperm : o1.Perm o2 := h1.trans h2.symm
  have hmap := hperm.map (entryLine g.records)
  refine ⟨?_, hmap⟩
  show List.Perm
    (List.eraseIdx (_ :: _ :: _ :: _ :: _ :: _ ::
      (o1.map (entryLine g.records) ++ _)) 1)
    (List.eraseIdx (_ :: _ :: _ :: _ :: _ :: _ ::
      (o2.map (entryLine g.records) ++ _)) 1)
  simp only [List.eraseIdx_cons_succ, List.eraseIdx_cons_zero]
  exact (((((hmap.append_right _).cons _).cons _).cons _).cons _).cons _

/-- Witness for `generate_deterministic` at the run
`generate testEnv ["pa", "pb"]` with the two orders of the counterexample. -/
theorem generate_deterministic_witness :
    (stripTime (renderOutput "main" "assets" false gAB ["a.txt", "b.txt"] "T1")).Perm
      (stripTime (renderOutput "main" "assets" false gAB ["b.txt", "a.txt"] "T2")) ∧
    ((["a.txt", "b.txt"].map (entryLine gAB.records)).Perm
      (["b.txt", "a.txt"].map (entryLine gAB.records))) :=
  generate_deterministic "main" "assets" false testEnv ["pa", "pb"] gAB
    ["a.txt", "b.txt"] ["b.txt", "a.txt"] "T1" "T2" (by rfl) (by decide) (by decide)

end Embedfiles
